import Mathlib

/-!
Verification of the magic-pipe / confuse fuzzing support code:
shallow embeddings of the C sources (MagicPipeLib, the AFL branch tracer,
the AFL forkserver wrapper, the low-level run-control code and the
confuse_dio exit-descriptor list), together with theorems about them.
-/

namespace MagicPipe

/-- Size of the pipe buffer header in bytes (`SIZEOF_PIPE_HEADER` in
`pipe-header.h`). -/
def SIZEOF_PIPE_HEADER : Nat := 16

/-- Shallow embedding of `struct pipe_header` from `pipe-header.c`: a 64-bit
magic identifier, a 16-bit memory page count, a 16-bit Fletcher-16 checksum
and a 32-bit used word.  Fields are natural numbers; the C width constraints
show up as the same masking the source performs, or as explicit bound
hypotheses on theorems. -/
structure pipe_header where
  magic : Nat
  pages : Nat
  csum : Nat
  used : Nat
deriving DecidableEq

/-- Embedding of `pipe_header_get_magic`. -/
def pipe_header_get_magic (head : pipe_header) : Nat := head.magic

/-- Embedding of `pipe_header_set_magic`. -/
def pipe_header_set_magic (head : pipe_header) (magic : Nat) : pipe_header :=
  { head with magic := magic }

/-- Embedding of `pipe_header_get_size`: `((size_t)head->pages + 1) << 12`. -/
def pipe_header_get_size (head : pipe_header) : Nat :=
  (head.pages + 1) <<< 12

/-- Embedding of `pipe_header_set_size`: `head->pages = (uint16_t)((size >> 12) - 1)`.
The `uint16_t` cast is the final `% 2 ^ 16`; every caller in `magic-pipe.c`
passes a page-aligned `size >= 4096`, so the `size_t` subtraction never
underflows there. -/
def pipe_header_set_size (head : pipe_header) (size : Nat) : pipe_header :=
  { head with pages := ((size >>> 12) - 1) % 2 ^ 16 }

/-- The 28-bit mask `((1 << 28) - 1)` used by `pipe_header_get_used` and
`pipe_header_set_used`. -/
def usedMask : Nat := (1 <<< 28) - 1

/-- Embedding of `pipe_header_get_used`: `head->used & mask`. -/
def pipe_header_get_used (head : pipe_header) : Nat :=
  head.used &&& usedMask

/-- Embedding of `pipe_header_set_used`:
`head->used = (used & mask) | (head->used & ~mask)`.  On `uint32_t`,
`~mask = 0xF0000000`. -/
def pipe_header_set_used (head : pipe_header) (used : Nat) : pipe_header :=
  { head with used := (used &&& usedMask) ||| (head.used &&& 0xF0000000) }

/-- Embedding of `pipe_header_get_retry`: `(bool)(head->used >> 31)`. -/
def pipe_header_get_retry (head : pipe_header) : Bool :=
  head.used >>> 31 != 0

/-- Embedding of `pipe_header_set_retry` with `bit = 1u << 31`; on `uint32_t`,
`~bit = 0x7FFFFFFF`. -/
def pipe_header_set_retry (head : pipe_header) (retry : Bool) : pipe_header :=
  if retry then { head with used := head.used ||| (1 <<< 31) }
  else { head with used := head.used &&& 0x7FFFFFFF }

/-- Embedding of `pipe_header_get_csum`. -/
def pipe_header_get_csum (head : pipe_header) : Nat := head.csum

/-- Little-endian byte serialization of the low `n` bytes of `x`; used to lay
the header fields out in the target (x86, little-endian) memory order in which
`fletcher16` walks them. -/
def leBytes (x n : Nat) : List Nat :=
  (List.range n).map fun i => x >>> (8 * i) % 256

/-- The 16 bytes of a `pipe_header` in declaration (memory) order:
`magic:u64`, `pages:u16`, `csum:u16`, `used:u32`, each little-endian. -/
def headerBytes (head : pipe_header) : List Nat :=
  leBytes head.magic 8 ++ leBytes head.pages 2 ++ leBytes head.csum 2 ++
    leBytes head.used 4

/-- Embedding of `fletcher16` from `pipe-header.c`: both accumulators are
seeded with `0xff`; each byte contributes `1 + byte` to `acu1` and `acu2`
accumulates the running `acu1`, in `uint32_t` arithmetic; each accumulator is
then reduced to 8 bits by adding its three byte-shifted copies and truncating
(`uint8_t` cast), and the result is `((uint16_t)sum2 << 8) + sum1`. -/
def fletcher16 (data : List Nat) : Nat :=
  let acus := data.foldl
    (fun (p : Nat × Nat) b =>
      let a1 := (p.1 + 1 + b) % 2 ^ 32
      (a1, (p.2 + a1) % 2 ^ 32))
    (0xff, 0xff)
  let sum1 := (acus.1 + acus.1 >>> 8 + acus.1 >>> 16 + acus.1 >>> 24) % 256
  let sum2 := (acus.2 + acus.2 >>> 8 + acus.2 >>> 16 + acus.2 >>> 24) % 256
  (sum2 <<< 8) + sum1

/-- Embedding of `pipe_header_calc_csum`: copy the header, zero the `csum`
field, and run `fletcher16` over all 16 bytes of the copy. -/
def pipe_header_calc_csum (head : pipe_header) : Nat :=
  fletcher16 (headerBytes { head with csum := 0 })

/-- Embedding of `pipe_header_set_csum`. -/
def pipe_header_set_csum (head : pipe_header) : pipe_header :=
  { head with csum := pipe_header_calc_csum head }

/-- Embedding of `pipe_header_csum_ok`. -/
def pipe_header_csum_ok (head : pipe_header) : Bool :=
  pipe_header_get_csum head == pipe_header_calc_csum head

/-- Embedding of `struct pipe_desc` from `magic-pipe.c`, restricted to the
fields the verified operations touch: the buffer list (represented by the
identities of the buffer descriptors, which are distinct heap pointers in C)
and the pipe magic identifier.  The debug fields and the `count` statistic
only feed `fprintf` diagnostics and are omitted. -/
structure pipe_desc where
  bufs : List Nat
  magic : Nat
deriving DecidableEq

/-- Embedding of `calc_map_size` from `magic-pipe.c` with the 4096-byte page
size returned by `pipemem_page_size` in `pipe-unix.c`:
`(len + pad) & ~pad` with `pad = 4095`, i.e. clearing the low 12 bits of
`len + 4095`. -/
def calc_map_size (len : Nat) : Nat :=
  (len + 4095) - (len + 4095) % 4096

/-- Embedding of `calc_aligned` from `magic-pipe.c`:
`(len + pad) & ~pad` with `pad = (1 << align_bits) - 1`, i.e. clearing the low
`align_bits` bits of `len + pad`. -/
def calc_aligned (len align_bits : Nat) : Nat :=
  (len + ((1 <<< align_bits) - 1)) - (len + ((1 <<< align_bits) - 1)) % (1 <<< align_bits)

/-- Embedding of `map_proto_buf` from `magic-pipe.c`: reject a zero length or
a page-rounded size above 256 MiB, otherwise return the zero-filled header of
a mapping of the rounded size (`pipemem_alloc` hands back cleared pages) with
its size recorded.  `none` stands for the error returns. -/
def map_proto_buf (len : Nat) : Option pipe_header :=
  if len = 0 then none
  else
    let map_size := calc_map_size len
    if map_size > 256 * 1024 * 1024 then none
    else some (pipe_header_set_size ⟨0, 0, 0, 0⟩ map_size)

/-- Embedding of `pipe_alloc_buf` from `magic-pipe.c`: reject sizes above
`256 MiB - SIZEOF_PIPE_HEADER`, otherwise map a buffer of
`size + SIZEOF_PIPE_HEADER` bytes.  The result is the initial header of the
newly allocated buffer (the descriptor bookkeeping that links it into
`pipe->bufs` is covered by `pipe_free_buf` below). -/
def pipe_alloc_buf (size : Nat) : Option pipe_header :=
  if size > 256 * 1024 * 1024 - SIZEOF_PIPE_HEADER then none
  else map_proto_buf (size + SIZEOF_PIPE_HEADER)

/-- Embedding of `pipe_add_used` from `magic-pipe.c`.  The C function computes
`new_used = calc_aligned(used, align_bits) + len` and asserts
`new_used + SIZEOF_PIPE_HEADER <= size` before storing the new used count;
the fatal `assert` is modelled as `none`. -/
def pipe_add_used (buf : pipe_header) (len align_bits : Nat) : Option pipe_header :=
  let size := pipe_header_get_size buf
  let used := pipe_header_get_used buf
  let new_used := calc_aligned used align_bits + len
  if new_used + SIZEOF_PIPE_HEADER ≤ size then
    some (pipe_header_set_used buf new_used)
  else
    none

/-- Retry loop of `pipe_send_buf`: while the header's retry bit is set after a
trap, clear the retry bit, restore the used count saved before the first trap,
recompute the checksum, re-prime the pages (`pipemem_populate`, a residency
hint that does not change the header) and trap again.  Each boundary-crossing
trap (`trigger_magic`) suspends the sender and lets the receiver rewrite the
header arbitrarily, so the traps are modelled by a list of header
transformers; `none` means the supplied list was exhausted with the retry bit
still set. -/
def send_loop (used : Nat) (head : pipe_header)
    (envs : List (pipe_header → pipe_header)) : Option pipe_header :=
  if pipe_header_get_retry head then
    match envs with
    | [] => none
    | env :: rest =>
        send_loop used
          (env (pipe_header_set_csum
            (pipe_header_set_used (pipe_header_set_retry head false) used)))
          rest
  else
    some head

/-- Embedding of `pipe_send_buf` from `magic-pipe.c`: assert
`used + SIZEOF_PIPE_HEADER <= size` (modelled as `none`), write the pipe's
magic into the header, recompute the checksum, trigger the first trap (head of
`envs`), run the retry loop over the remaining traps, and finally take the
pipe's magic from the (possibly rotated) magic found in the header. -/
def pipe_send_buf (pipe : pipe_desc) (head : pipe_header)
    (envs : List (pipe_header → pipe_header)) : Option (pipe_desc × pipe_header) :=
  let used := pipe_header_get_used head
  if used + SIZEOF_PIPE_HEADER ≤ pipe_header_get_size head then
    match envs with
    | [] => none
    | env :: rest =>
        match send_loop used
            (env (pipe_header_set_csum (pipe_header_set_magic head pipe.magic)))
            rest with
        | some hf =>
            some ({ pipe with magic := pipe_header_get_magic hf }, hf)
        | none => none
  else
    none

/-- Embedding of `pipe_free_buf` from `magic-pipe.c` on the buffer list: an
empty list returns immediately; otherwise the walk unlinks and releases the
first (in C: only, since descriptors are distinct heap pointers) occurrence of
`buf` and stops.  The boolean records whether `free_buf_desc` was called. -/
def pipe_free_buf : List Nat → Nat → List Nat × Bool
  | [], _ => ([], false)
  | curr :: rest, buf =>
      if curr = buf then (rest, true)
      else
        let r := pipe_free_buf rest buf
        (curr :: r.1, r.2)

end MagicPipe

namespace AflTracer

/-- `MAP_SIZE = 1 << MAP_SIZE_POW2` with `MAP_SIZE_POW2 = 16`, from
`afl-branch-tracer.c`. -/
def MAP_SIZE : Nat := 1 <<< 16

/-- State touched by `afl_maybe_log`: the coverage map pointer (the byte map
it points to, or `none` when unset) and the thread-local `prev_loc` register.
The map is a total function from indices to byte values (each `< 256`). -/
structure tracer_state where
  map : Option (Nat → Nat)
  prev_loc : Nat

/-- Embedding of `afl_maybe_log` from `afl-branch-tracer.c`.  `cur_loc` is a
C `unsigned long` (64 bits): `cur_loc = (cur_loc >> 4) ^ (cur_loc << 8)` wraps
the shift at 64 bits, then `cur_loc &= MAP_SIZE - 1`.  The byte
`map[cur_loc ^ prev_loc]` is incremented by the `++` operator, which on
`unsigned char` wraps modulo 256, and `prev_loc` becomes `cur_loc >> 1`.  A
null map pointer returns immediately, changing nothing. -/
def afl_maybe_log (s : tracer_state) (loc : Nat) : tracer_state :=
  match s.map with
  | none => s
  | some m =>
      let cur_loc := (((loc % 2 ^ 64) >>> 4) ^^^ ((loc <<< 8) % 2 ^ 64)) &&& (MAP_SIZE - 1)
      let idx := cur_loc ^^^ s.prev_loc
      { map := some fun i => if i = idx then (m i + 1) % 256 else m i,
        prev_loc := cur_loc >>> 1 }

/-- Byte stored in the coverage map at index `i` (0 when the map is unset);
used to observe the effect of `afl_maybe_log`. -/
def mapAt (s : tracer_state) (i : Nat) : Nat :=
  match s.map with
  | none => 0
  | some m => m i

end AflTracer

namespace AflWrapper

/-- `FORKSRV_FD` from `confuse-afl-wrapper.cpp`. -/
def FORKSRV_FD : Nat := 198

/-- `FS_OPT_ENABLED = 0x80000001`. -/
def FS_OPT_ENABLED : Nat := 0x80000001

/-- `FS_OPT_MAPSIZE = 0x40000000`. -/
def FS_OPT_MAPSIZE : Nat := 0x40000000

/-- `FS_OPT_SHDMEM_FUZZ = 0x01000000`. -/
def FS_OPT_SHDMEM_FUZZ : Nat := 0x01000000

/-- `FS_OPT_MAX_MAPSIZE = ((0x00fffffe >> 1) + 1)`. -/
def FS_OPT_MAX_MAPSIZE : Nat := (0x00fffffe >>> 1) + 1

/-- `FS_OPT_SET_MAPSIZE(x) = (x <= 1 || x > FS_OPT_MAX_MAPSIZE ? 0 : ((x - 1) << 1))`. -/
def FS_OPT_SET_MAPSIZE (x : Nat) : Nat :=
  if x ≤ 1 ∨ x > FS_OPT_MAX_MAPSIZE then 0 else (x - 1) <<< 1

/-- `MAP_SIZE = 1ull << 16` from `confuse-afl-wrapper.h`. -/
def MAP_SIZE : Nat := 1 <<< 16

/-- Modelled from the spec: AFL++'s inverse of the `FS_OPT_SET_MAPSIZE`
encoding (`FS_OPT_GET_MAPSIZE` in AFL++ itself, which is not part of this
repository): the map-size field occupies bits 1..24 of the status word
(`x & 0x00fffffe`) and decodes as that field shifted down by one, plus one.
Used only to state that the negotiated map size "decodes back". -/
def FS_OPT_GET_MAPSIZE (x : Nat) : Nat :=
  ((x &&& 0x00fffffe) >>> 1) + 1

/-- Descriptor I/O requests issued by the wrapper, in order: a read request of
`len` bytes from `fd`, or a write request of the given bytes to `fd`. -/
inductive IOEvent
  | readReq (fd len : Nat)
  | writeReq (fd : Nat) (bytes : List Nat)
deriving DecidableEq

/-- Little-endian bytes of a 4-byte word as `memcpy`/`write` see them. -/
def u32le (x : Nat) : List Nat :=
  [x % 256, x >>> 8 % 256, x >>> 16 % 256, x >>> 24 % 256]

/-- Globals of `confuse-afl-wrapper.cpp` relevant to the adapter: the `afl`
active flag and whether the coverage / input shared memories are attached. -/
structure wrapper_state where
  afl : Bool
  area_attached : Bool
  input_attached : Bool
deriving DecidableEq

/-- The status word computed by `confuse_aflplusplus_init`:
`FS_OPT_ENABLED | FS_OPT_MAPSIZE | FS_OPT_SET_MAPSIZE(MAP_SIZE)`, plus
`FS_OPT_SHDMEM_FUZZ` when the `__AFL_SHM_FUZZ_ID` environment variable is
present. -/
def init_status (fuzz_str : Option String) : Nat :=
  let base := FS_OPT_ENABLED ||| FS_OPT_MAPSIZE ||| FS_OPT_SET_MAPSIZE MAP_SIZE
  match fuzz_str with
  | some _ => base ||| FS_OPT_SHDMEM_FUZZ
  | none => base

/-- Embedding of `confuse_aflplusplus_init` from `confuse-afl-wrapper.cpp`.
Inputs are the two environment variables (`__AFL_SHM_ID`, `__AFL_SHM_FUZZ_ID`)
and whether the 4-byte status write succeeds; `shmat` is modelled as
succeeding (on failure the C process exits and no further call happens).
Returns the C return value, the descriptor writes issued, and the resulting
global state.  When `__AFL_SHM_ID` is absent the function returns `-1`
immediately: nothing is attached, nothing is written, `afl` stays false. -/
def confuse_aflplusplus_init (id_str fuzz_str : Option String) (write_ok : Bool) :
    Int × List IOEvent × wrapper_state :=
  match id_str with
  | none => (-1, [], ⟨false, false, false⟩)
  | some _ =>
      let status := init_status fuzz_str
      (0, [IOEvent.writeReq (FORKSRV_FD + 1) (u32le status)],
        ⟨write_ok, true, fuzz_str.isSome⟩)

/-- Embedding of `confuse_afl_wait` from `confuse-afl-wrapper.cpp`.  The
function always issues a 4-byte read on `FORKSRV_FD` (there is no guard on the
`afl` flag): on a short read it clears `afl` and returns; otherwise it writes
its pid to `FORKSRV_FD + 1` and clears `afl` if that write falls short. -/
def confuse_afl_wait (s : wrapper_state) (read_ok : Bool) (pid : Nat) (write_ok : Bool) :
    wrapper_state × List IOEvent :=
  if !read_ok then ({ s with afl := false }, [IOEvent.readReq FORKSRV_FD 4])
  else
    ({ s with afl := if write_ok then s.afl else false },
      [IOEvent.readReq FORKSRV_FD 4, IOEvent.writeReq (FORKSRV_FD + 1) (u32le pid)])

/-- Embedding of `confuse_afl_report`: unconditionally writes the 4-byte
status (`SIGABRT = 6` on crash, else 0) to `FORKSRV_FD + 1` and clears `afl`
on a short write. -/
def confuse_afl_report (s : wrapper_state) (crash : Bool) (write_ok : Bool) :
    wrapper_state × List IOEvent :=
  ({ s with afl := if write_ok then s.afl else false },
    [IOEvent.writeReq (FORKSRV_FD + 1) (u32le (if crash then 6 else 0))])

/-- Embedding of `confuse_get_afl_input`: unconditionally dereferences
`afl_input_ptr` (the input shared memory, a byte function) and sets the
`input_size`/`input` globals from its 4-byte little-endian length prefix; it
is not guarded by the `afl` flag either.  Result: `(input_size, input offset)`. -/
def confuse_get_afl_input (shm : Nat → Nat) : Nat × Nat :=
  (shm 0 + shm 1 <<< 8 + shm 2 <<< 16 + shm 3 <<< 24, 4)

end AflWrapper

namespace ConfuseLL

/-- The `sig_usr2_from_simics` flag from `confuse_ll.c` (set by the `SIGUSR2`
handler, polled and cleared by `wait_for_simics`). -/
structure ll_state where
  sig_usr2_from_simics : Bool
deriving DecidableEq

/-- Embedding of `wait_for_simics` from `confuse_ll.c`:
`while (!sig_usr2_from_simics) sigsuspend(...)` followed by clearing the flag.
Each `sigsuspend` returns when some signal is delivered; the environment entry
says whether that delivery was the target's `SIGUSR2` acknowledgement (whose
handler sets the flag).  `none` models the call still blocked after the whole
(finite) delivery trace. -/
def wait_for_simics (s : ll_state) (env : List Bool) : Option ll_state :=
  if s.sig_usr2_from_simics then some ⟨false⟩
  else
    match env with
    | [] => none
    | d :: rest => wait_for_simics ⟨d⟩ rest
termination_by env.length
decreasing_by simp_all

/-- Embedding of `confuse_reset` from `confuse_ll.c`: `kill(simics, SIGUSR2)`
— delivery success is the environment input `kill_ok` — returning `-1`
immediately (no wait) when delivery fails, else blocking in
`wait_for_simics` and returning `0`. -/
def confuse_reset (kill_ok : Bool) (s : ll_state) (env : List Bool) :
    Option (Int × ll_state) :=
  if kill_ok then
    match wait_for_simics s env with
    | some s2 => some (0, s2)
    | none => none
  else some (-1, s)

/-- Embedding of `confuse_run` from `confuse_ll.c`: identical control flow to
`confuse_reset` with `SIGUSR1` as the notification. -/
def confuse_run (kill_ok : Bool) (s : ll_state) (env : List Bool) :
    Option (Int × ll_state) :=
  if kill_ok then
    match wait_for_simics s env with
    | some s2 => some (0, s2)
    | none => none
  else some (-1, s)

end ConfuseLL

namespace ConfuseDio

/-- One node of the exit-descriptor linked list from `confuse-dio.c`,
restricted to the fields the list operations touch: the breakpoint id, the
stored message (`none` when no message is allocated) and whether a
`Core_Breakpoint_Memop` hap callback is registered for it.  The list is
represented front to back; the last element plays the role of the node whose
`next` pointer is null. -/
structure exit_dsc where
  bp : Nat
  msg : Option String
  hap : Bool
deriving DecidableEq

/-- The exit-descriptor list as built by `dio_init_object`: one `MM_ZALLOC`ed
(zero-filled) node, the initial sentinel. -/
def dio_init_list : List exit_dsc := [⟨0, none, false⟩]

/-- Embedding of `add_abnormal_exit` from `confuse-dio.c`: walk the nodes that
have a successor (the used nodes) and return unchanged if any of them already
carries `bp`; otherwise claim the sentinel for `(bp, message)`, register its
hap callback, and append a fresh zero-filled sentinel. -/
def add_abnormal_exit (l : List exit_dsc) (bp : Nat) (message : String) :
    List exit_dsc :=
  if l.dropLast.any fun n => n.bp == bp then l
  else l.dropLast ++ [⟨bp, some message, true⟩, ⟨0, none, false⟩]

/-- Embedding of `clear_abnormal_exits` from `confuse-dio.c`: every used node
has its message freed and its hap callback removed, every node but the head is
freed, and the head's `next` is nulled — so the head survives as the new
sentinel, keeping its (now stale) `bp` field.  With only the sentinel in the
list nothing is freed and the list is untouched. -/
def clear_abnormal_exits (l : List exit_dsc) : List exit_dsc :=
  match l with
  | [] => []
  | [s] => [s]
  | h :: _ :: _ => [⟨h.bp, none, false⟩]

/-- Invariant of the exit-descriptor list: it is non-empty, its final node is
an unused sentinel (no message, no registered callback), and the used nodes
(all nodes before the final one) carry pairwise-distinct breakpoint ids. -/
def dio_wf (l : List exit_dsc) : Prop :=
  l ≠ [] ∧ (∀ s ∈ l.getLast?, s.msg = none ∧ s.hap = false) ∧
    l.dropLast.Pairwise fun a b => a.bp ≠ b.bp

end ConfuseDio

namespace MagicPipe

theorem testBit_usedMask (i : Nat) : Nat.testBit usedMask i = decide (i < 28) := by
  have h : usedMask = 2 ^ 28 - 1 := by rw [usedMask, Nat.one_shiftLeft]
  rw [h, Nat.testBit_two_pow_sub_one]

theorem testBit_usedMask_of_ge (i : Nat) (h : 28 ≤ i) :
    Nat.testBit usedMask i = false := by
  rw [testBit_usedMask]
  simp only [decide_eq_false_iff_not, Nat.not_lt]
  exact h

theorem testBit_himask_of_ge (i : Nat) (h28 : 28 ≤ i) (h31 : i ≤ 31) :
    Nat.testBit 0xF0000000 i = true := by
  interval_cases i <;> decide

theorem testBit_retrybit_of_lt (j : Nat) (h : j < 28) :
    Nat.testBit (1 <<< 31) j = false := by
  rw [Nat.one_shiftLeft]
  exact Nat.testBit_two_pow_of_ne (by omega)

theorem testBit_notretry_of_lt (j : Nat) (h : j < 28) :
    Nat.testBit 0x7FFFFFFF j = true := by
  have h31 : (0x7FFFFFFF : Nat) = 2 ^ 31 - 1 := by norm_num
  rw [h31, Nat.testBit_two_pow_sub_one]
  simp only [decide_eq_true_eq]
  omega

theorem and_usedMask_of_set (w : Nat) :
    ((100 &&& usedMask ||| w &&& 0xF0000000) ||| 1 <<< 31) &&& usedMask = 100 := by
  rw [Nat.and_distrib_right, Nat.and_distrib_right]
  have c1 : 100 &&& usedMask &&& usedMask = 100 := by decide
  have c2 : w &&& 0xF0000000 &&& usedMask = 0 := by
    rw [Nat.and_assoc]
    have h0 : (0xF0000000 : Nat) &&& usedMask = 0 := by decide
    rw [h0, Nat.and_zero]
  have c3 : (1 <<< 31) &&& usedMask = 0 := by decide
  rw [c1, c2, c3, Nat.or_zero, Nat.or_zero]

/-- C4: for every pipe header, `pipe_header_set_csum` stores in the `csum`
field exactly the Fletcher-16 value computed over the 16 header bytes with the
`csum` field zeroed (seeds `0xFF`, per-byte contribution `1 + byte`, running
second accumulator, byte-shift reduction of each accumulator, result
`sum2 << 8 | sum1`, all as in `fletcher16`), and immediately afterwards
`pipe_header_csum_ok` returns `true`. -/
theorem csum_roundtrip (h : pipe_header) :
    (pipe_header_set_csum h).csum = fletcher16 (headerBytes { h with csum := 0 }) ∧
    pipe_header_csum_ok (pipe_header_set_csum h) = true := by
  cases h with
  | mk m p c u =>
      constructor
      · rfl
      · simp [pipe_header_csum_ok, pipe_header_get_csum, pipe_header_set_csum,
          pipe_header_calc_csum]

/-- C7: the payload-length field (bits 0–27) and the retry flag (bit 31) of
the `used` word are independent.  For every header, `set_used 100` then
`set_retry true` leaves `get_used` at 100 with `get_retry` true, a further
`set_retry false` still leaves `get_used` at 100; moreover `set_used` never
modifies bits 28–31 of the `used` word and `set_retry` never modifies bits
0–27. -/
theorem used_retry_independence (h : pipe_header) (a : Nat) (b : Bool) (i j : Nat) :
    pipe_header_get_used (pipe_header_set_retry (pipe_header_set_used h 100) true) = 100 ∧
    pipe_header_get_retry (pipe_header_set_retry (pipe_header_set_used h 100) true) = true ∧
    pipe_header_get_used (pipe_header_set_retry
      (pipe_header_set_retry (pipe_header_set_used h 100) true) false) = 100 ∧
    (28 ≤ i → i ≤ 31 →
      Nat.testBit (pipe_header_set_used h a).used i = Nat.testBit h.used i) ∧
    (j < 28 →
      Nat.testBit (pipe_header_set_retry h b).used j = Nat.testBit h.used j) := by
  refine ⟨?_, ?_, ?_, ?_, ?_⟩
  · simp only [pipe_header_get_used, pipe_header_set_retry, pipe_header_set_used,
      if_pos]
    exact and_usedMask_of_set h.used
  · simp only [pipe_header_get_retry, pipe_header_set_retry, pipe_header_set_used,
      if_pos, bne_iff_ne, ne_eq]
    rw [Nat.one_shiftLeft, Nat.shiftRight_eq_div_pow]
    have hge : 2 ^ 31 ≤ (100 &&& usedMask ||| h.used &&& 0xF0000000) ||| 2 ^ 31 :=
      Nat.testBit_implies_ge (i := 31)
        (by rw [Nat.testBit_or]
            have hb : Nat.testBit (2 ^ 31) 31 = true := by decide
            rw [hb, Bool.or_true])
    have hpos : 0 < ((100 &&& usedMask ||| h.used &&& 0xF0000000) ||| 2 ^ 31) / 2 ^ 31 :=
      Nat.div_pos hge (by norm_num)
    omega
  · simp only [pipe_header_get_used, pipe_header_set_retry, pipe_header_set_used,
      if_pos, Bool.false_eq_true, if_false]
    rw [Nat.and_assoc]
    have c4 : (0x7FFFFFFF : Nat) &&& usedMask = usedMask := by decide
    rw [c4]
    exact and_usedMask_of_set h.used
  · intro h28 h31
    simp only [pipe_header_set_used]
    rw [Nat.testBit_or, Nat.testBit_and, Nat.testBit_and,
      testBit_usedMask_of_ge i h28, testBit_himask_of_ge i h28 h31]
    simp
  · intro hj
    cases b with
    | true =>
        simp only [pipe_header_set_retry, if_pos]
        rw [Nat.testBit_or, testBit_retrybit_of_lt j hj]
        simp
    | false =>
        simp only [pipe_header_set_retry, Bool.false_eq_true, if_false]
        rw [Nat.testBit_and, testBit_notretry_of_lt j hj]
        simp

/-- Witness for C7 at the zero header, `a = 7`, `b = true`, `i = 30`,
`j = 3`. -/
theorem used_retry_independence_witness :
    pipe_header_get_used (pipe_header_set_retry
      (pipe_header_set_used ⟨0, 0, 0, 0⟩ 100) true) = 100 ∧
    pipe_header_get_retry (pipe_header_set_retry
      (pipe_header_set_used ⟨0, 0, 0, 0⟩ 100) true) = true ∧
    pipe_header_get_used (pipe_header_set_retry (pipe_header_set_retry
      (pipe_header_set_used ⟨0, 0, 0, 0⟩ 100) true) false) = 100 ∧
    Nat.testBit (pipe_header_set_used ⟨0, 0, 0, 0⟩ 7).used 30 =
      Nat.testBit (pipe_header.mk 0 0 0 0).used 30 ∧
    Nat.testBit (pipe_header_set_retry ⟨0, 0, 0, 0⟩ true).used 3 =
      Nat.testBit (pipe_header.mk 0 0 0 0).used 3 := by
  obtain ⟨p1, p2, p3, p4, p5⟩ := used_retry_independence ⟨0, 0, 0, 0⟩ 7 true 30 3
  exact ⟨p1, p2, p3, p4 (by norm_num) (by norm_num), p5 (by norm_num)⟩

/-- C10: `pipe_free_buf` is a no-op when the buffer is not in the handle's
buffer list (nothing is unlinked, nothing released); when it is in the list,
exactly that one descriptor is unlinked and released and every other entry is
left in place and in order. -/
theorem pipe_free_buf_spec (bufs : List Nat) (b : Nat) :
    (b ∉ bufs → pipe_free_buf bufs b = (bufs, false)) ∧
    (b ∈ bufs → ∃ l1 l2, bufs = l1 ++ b :: l2 ∧ b ∉ l1 ∧
      pipe_free_buf bufs b = (l1 ++ l2, true)) := by
  induction bufs with
  | nil => simp [pipe_free_buf]
  | cons c rest ih =>
      constructor
      · intro hnot
        have hc : ¬(c = b) := fun e => hnot (by simp [e])
        have hr : b ∉ rest := fun e => hnot (by simp [e])
        simp [pipe_free_buf, hc, ih.1 hr]
      · intro hmem
        by_cases hc : c = b
        · subst hc
          exact ⟨[], rest, rfl, by simp, by simp [pipe_free_buf]⟩
        · have hr : b ∈ rest := by
            rcases List.mem_cons.mp hmem with h | h
            · exact absurd h.symm hc
            · exact h
          obtain ⟨l1, l2, heq, hnotl1, hfb⟩ := ih.2 hr
          refine ⟨c :: l1, l2, by simp [heq], ?_, by simp [pipe_free_buf, hc, hfb]⟩
          intro hin
          rcases List.mem_cons.mp hin with h | h
          · exact hc h.symm
          · exact hnotl1 h

/-- Witness for C10: `9` is not in `[5, 7]` (no-op) and `7` is (removed). -/
theorem pipe_free_buf_spec_witness :
    pipe_free_buf [5, 7] 9 = ([5, 7], false) ∧
    (∃ l1 l2, [5, 7] = l1 ++ 7 :: l2 ∧ 7 ∉ l1 ∧
      pipe_free_buf [5, 7] 7 = (l1 ++ l2, true)) :=
  ⟨(pipe_free_buf_spec [5, 7] 9).1 (by decide),
    (pipe_free_buf_spec [5, 7] 7).2 (by decide)⟩

theorem and_hi_and_usedMask (w : Nat) : w &&& 0xF0000000 &&& usedMask = 0 := by
  rw [Nat.and_assoc]
  have h0 : (0xF0000000 : Nat) &&& usedMask = 0 := by decide
  rw [h0, Nat.and_zero]

theorem get_used_set_used (h : pipe_header) (u : Nat) (hu : u < 2 ^ 28) :
    pipe_header_get_used (pipe_header_set_used h u) = u := by
  simp only [pipe_header_get_used, pipe_header_set_used]
  rw [Nat.and_distrib_right, and_hi_and_usedMask, Nat.or_zero, Nat.and_assoc]
  have hm : usedMask &&& usedMask = usedMask := by decide
  rw [hm]
  have hmask : usedMask = 2 ^ 28 - 1 := by rw [usedMask, Nat.one_shiftLeft]
  rw [hmask, Nat.and_pow_two_sub_one_eq_mod, Nat.mod_eq_of_lt hu]

theorem get_size_le (h : pipe_header) (hpages : h.pages < 2 ^ 16) :
    pipe_header_get_size h ≤ 2 ^ 28 := by
  rw [pipe_header_get_size, Nat.shiftLeft_eq]
  calc (h.pages + 1) * 2 ^ 12 ≤ 2 ^ 16 * 2 ^ 12 :=
        Nat.mul_le_mul_right _ (by omega)
    _ = 2 ^ 28 := by norm_num

/-- C6: `pipe_add_used` advances the used-count to the old used-count aligned
up to `2 ^ align_bits` plus `len`; it fails closed (fatal assertion, modelled
as `none`) exactly when that new used-count plus the 16-byte header would
exceed the buffer's allocated size, and on success it stores the new
used-count exactly (no truncation or wrap: the size bound keeps it under
`2 ^ 28`).  In particular, after `pipe_alloc_buf 10000` (page-rounded to
12288 bytes), two `pipe_add_used _ 4096 0` calls succeed and the third hits
the assertion. -/
theorem pipe_add_used_spec (h : pipe_header) (len align_bits : Nat)
    (hpages : h.pages < 2 ^ 16) :
    (calc_aligned (pipe_header_get_used h) align_bits % 2 ^ align_bits = 0 ∧
      pipe_header_get_used h ≤ calc_aligned (pipe_header_get_used h) align_bits ∧
      calc_aligned (pipe_header_get_used h) align_bits <
        pipe_header_get_used h + 2 ^ align_bits) ∧
    (pipe_add_used h len align_bits = none ↔
      pipe_header_get_size h <
        calc_aligned (pipe_header_get_used h) align_bits + len + SIZEOF_PIPE_HEADER) ∧
    (∀ h2, pipe_add_used h len align_bits = some h2 →
      pipe_header_get_used h2 =
        calc_aligned (pipe_header_get_used h) align_bits + len) ∧
    (∃ b0 b1 b2, pipe_alloc_buf 10000 = some b0 ∧
      pipe_add_used b0 4096 0 = some b1 ∧
      pipe_add_used b1 4096 0 = some b2 ∧
      pipe_add_used b2 4096 0 = none) := by
  have hn : 0 < 2 ^ align_bits := Nat.two_pow_pos align_bits
  have hsl : (1 : Nat) <<< align_bits = 2 ^ align_bits := Nat.one_shiftLeft align_bits
  refine ⟨?_, ?_, ?_, ?_⟩
  · rw [calc_aligned, hsl]
    set q := pipe_header_get_used h + (2 ^ align_bits - 1) with hq
    have h1 := Nat.div_add_mod q (2 ^ align_bits)
    have h2 : q % 2 ^ align_bits < 2 ^ align_bits := Nat.mod_lt _ hn
    refine ⟨?_, by omega, by omega⟩
    have h3 : q - q % 2 ^ align_bits = 2 ^ align_bits * (q / 2 ^ align_bits) := by omega
    rw [h3, Nat.mul_mod_right]
  · rw [pipe_add_used]
    by_cases hc : calc_aligned (pipe_header_get_used h) align_bits + len +
        SIZEOF_PIPE_HEADER ≤ pipe_header_get_size h
    · simp only [hc, if_pos]
      constructor
      · intro hfalse
        exact absurd hfalse (by simp)
      · intro hlt
        omega
    · simp only [if_neg hc]
      constructor
      · intro _
        omega
      · intro _
        trivial
  · intro h2 hsome
    rw [pipe_add_used] at hsome
    by_cases hc : calc_aligned (pipe_header_get_used h) align_bits + len +
        SIZEOF_PIPE_HEADER ≤ pipe_header_get_size h
    · simp only [hc, if_pos, Option.some.injEq] at hsome
      have hsz := get_size_le h hpages
      have hlt : calc_aligned (pipe_header_get_used h) align_bits + len < 2 ^ 28 := by
        rw [SIZEOF_PIPE_HEADER] at hc
        omega
      rw [← hsome]
      exact get_used_set_used h _ hlt
    · simp only [if_neg hc] at hsome
      simp at hsome
  · exact ⟨⟨0, 2, 0, 0⟩, ⟨0, 2, 0, 4096⟩, ⟨0, 2, 0, 8192⟩,
      by decide, by decide, by decide, by decide⟩

/-- Witness for C6 at the buffer allocated by `pipe_alloc_buf 10000`. -/
theorem pipe_add_used_spec_witness :
    pipe_add_used ⟨0, 2, 0, 0⟩ 4096 0 = some ⟨0, 2, 0, 4096⟩ ∧
    pipe_header_get_used (⟨0, 2, 0, 4096⟩ : pipe_header) =
      calc_aligned (pipe_header_get_used ⟨0, 2, 0, 0⟩) 0 + 4096 := by
  have hmain := pipe_add_used_spec ⟨0, 2, 0, 0⟩ 4096 0 (by norm_num)
  exact ⟨by decide, hmain.2.2.1 ⟨0, 2, 0, 4096⟩ (by decide)⟩

theorem send_loop_retry_clear (used : Nat) (envs : List (pipe_header → pipe_header)) :
    ∀ hd hf, send_loop used hd envs = some hf → pipe_header_get_retry hf = false := by
  induction envs with
  | nil =>
      intro hd hf h
      rw [send_loop] at h
      cases hr : pipe_header_get_retry hd with
      | false =>
          rw [hr] at h
          simp only [Bool.false_eq_true, if_false, Option.some.injEq] at h
          rw [← h]
          exact hr
      | true =>
          rw [hr] at h
          simp at h
  | cons env rest ih =>
      intro hd hf h
      rw [send_loop] at h
      cases hr : pipe_header_get_retry hd with
      | false =>
          rw [hr] at h
          simp only [Bool.false_eq_true, if_false, Option.some.injEq] at h
          rw [← h]
          exact hr
      | true =>
          rw [hr] at h
          simp only [if_pos] at h
          exact ih _ _ h

/-- C5: whenever `pipe_send_buf` returns (that is, a trap trace exists that
lets the retry loop finish, the loop itself being the embedded clear-retry /
restore-used / recompute-csum / re-prime / re-trap sequence), the returned
header's retry bit is clear and the handle's magic has been updated to the
(possibly rotated) magic value found in the header after the final trap. -/
theorem pipe_send_spec (pipe : pipe_desc) (head : pipe_header)
    (envs : List (pipe_header → pipe_header)) (p2 : pipe_desc) (hf : pipe_header)
    (hres : pipe_send_buf pipe head envs = some (p2, hf)) :
    pipe_header_get_retry hf = false ∧ p2.magic = pipe_header_get_magic hf := by
  unfold pipe_send_buf at hres
  by_cases hsz : pipe_header_get_used head + SIZEOF_PIPE_HEADER ≤
      pipe_header_get_size head
  · rw [if_pos hsz] at hres
    cases envs with
    | nil => simp at hres
    | cons env rest =>
        simp only at hres
        cases hsl : send_loop (pipe_header_get_used head)
            (env (pipe_header_set_csum (pipe_header_set_magic head pipe.magic)))
            rest with
        | none => rw [hsl] at hres; simp at hres
        | some hmid =>
            rw [hsl] at hres
            simp only [Option.some.injEq, Prod.mk.injEq] at hres
            obtain ⟨hp, hh⟩ := hres
            subst hh
            constructor
            · exact send_loop_retry_clear _ _ _ _ hsl
            · rw [← hp]
  · rw [if_neg hsz] at hres
    simp at hres

/-- Witness for C5: a single trap that leaves the header unchanged (retry bit
clear) lets `pipe_send_buf` return at once. -/
theorem pipe_send_spec_witness :
    pipe_header_get_retry
      (pipe_header_set_csum (pipe_header_set_magic ⟨0, 0, 0, 100⟩ 42)) = false ∧
    (pipe_desc.mk [] 42).magic = pipe_header_get_magic
      (pipe_header_set_csum (pipe_header_set_magic ⟨0, 0, 0, 100⟩ 42)) :=
  pipe_send_spec ⟨[], 42⟩ ⟨0, 0, 0, 100⟩ [fun h => h] ⟨[], 42⟩
    (pipe_header_set_csum (pipe_header_set_magic ⟨0, 0, 0, 100⟩ 42)) (by decide)

end MagicPipe

namespace ConfuseLL

theorem wait_for_simics_clears (env : List Bool) :
    ∀ s s2, wait_for_simics s env = some s2 → s2 = ⟨false⟩ := by
  induction env with
  | nil =>
      intro s s2 h
      rw [wait_for_simics] at h
      by_cases hs : s.sig_usr2_from_simics
      · simp only [hs, if_pos, Option.some.injEq] at h
        exact h.symm
      · simp [hs] at h
  | cons d rest ih =>
      intro s s2 h
      rw [wait_for_simics] at h
      by_cases hs : s.sig_usr2_from_simics
      · simp only [hs, if_pos, Option.some.injEq] at h
        exact h.symm
      · simp only [hs, Bool.false_eq_true, if_false] at h
        exact ih _ _ h

theorem wait_for_simics_terminates (env : List Bool) :
    ∀ s : ll_state, (s.sig_usr2_from_simics = true ∨ true ∈ env) →
      ∃ s2, wait_for_simics s env = some s2 := by
  induction env with
  | nil =>
      intro s hs
      rcases hs with hs | hs
      · exact ⟨⟨false⟩, by rw [wait_for_simics]; simp [hs]⟩
      · simp at hs
  | cons d rest ih =>
      intro s hs
      by_cases hflag : s.sig_usr2_from_simics
      · exact ⟨⟨false⟩, by rw [wait_for_simics]; simp [hflag]⟩
      · have hd : d = true ∨ true ∈ rest := by
          rcases hs with hs | hs
          · exact absurd hs hflag
          · rcases List.mem_cons.mp hs with hs | hs
            · exact Or.inl hs.symm
            · exact Or.inr hs
        obtain ⟨s2, h2⟩ := ih ⟨d⟩ hd
        exact ⟨s2, by rw [wait_for_simics]; simp [hflag, h2]⟩

/-- C8: `confuse_reset` and `confuse_run` return the `SignalError` report
(`-1`) exactly when the notification to the target could not be delivered, and
then return immediately without entering the acknowledgement wait (the state,
in particular the acknowledgement flag, is untouched); when delivery succeeds
they block until the acknowledgement has been observed (they return as soon as
the flag is or becomes set), consume the flag, and return success (`0`). -/
theorem confuse_reset_run_spec (s : ll_state) (env : List Bool) :
    (confuse_reset false s env = some (-1, s) ∧
      confuse_run false s env = some (-1, s)) ∧
    (∀ r s2, confuse_reset true s env = some (r, s2) →
      r = 0 ∧ s2.sig_usr2_from_simics = false) ∧
    (∀ r s2, confuse_run true s env = some (r, s2) →
      r = 0 ∧ s2.sig_usr2_from_simics = false) ∧
    ((s.sig_usr2_from_simics = true ∨ true ∈ env) →
      ∃ s2, confuse_reset true s env = some (0, s2) ∧
        confuse_run true s env = some (0, s2)) ∧
    (∀ d : Bool, (∃ s2, confuse_reset d s env = some (-1, s2)) ↔ d = false) := by
  refine ⟨⟨rfl, rfl⟩, ?_, ?_, ?_, ?_⟩
  · intro r s2 h
    rw [confuse_reset, if_pos rfl] at h
    cases hw : wait_for_simics s env with
    | none => rw [hw] at h; simp at h
    | some s3 =>
        rw [hw] at h
        simp only [Option.some.injEq, Prod.mk.injEq] at h
        have := wait_for_simics_clears env s s3 hw
        subst this
        exact ⟨h.1.symm, by rw [← h.2]⟩
  · intro r s2 h
    rw [confuse_run, if_pos rfl] at h
    cases hw : wait_for_simics s env with
    | none => rw [hw] at h; simp at h
    | some s3 =>
        rw [hw] at h
        simp only [Option.some.injEq, Prod.mk.injEq] at h
        have := wait_for_simics_clears env s s3 hw
        subst this
        exact ⟨h.1.symm, by rw [← h.2]⟩
  · intro hev
    obtain ⟨s2, h2⟩ := wait_for_simics_terminates env s hev
    exact ⟨s2, by rw [confuse_reset, if_pos rfl, h2],
      by rw [confuse_run, if_pos rfl, h2]⟩
  · intro d
    cases d with
    | false => simp [confuse_reset]
    | true =>
        simp only [Bool.true_eq_false, iff_false, not_exists]
        intro s2 h
        rw [confuse_reset, if_pos rfl] at h
        cases hw : wait_for_simics s env with
        | none => rw [hw] at h; simp at h
        | some s3 =>
            rw [hw] at h
            simp only [Option.some.injEq, Prod.mk.injEq] at h
            omega

/-- Witness for C8 with a clear flag and a trace delivering one `SIGUSR2`. -/
theorem confuse_reset_run_spec_witness :
    (confuse_reset false ⟨false⟩ [true] = some (-1, ⟨false⟩) ∧
      confuse_run false ⟨false⟩ [true] = some (-1, ⟨false⟩)) ∧
    ((0 : Int) = 0 ∧ (ll_state.mk false).sig_usr2_from_simics = false) ∧
    (∃ s2, confuse_reset true ⟨false⟩ [true] = some (0, s2) ∧
      confuse_run true ⟨false⟩ [true] = some (0, s2)) ∧
    (¬∃ s2, confuse_reset true ⟨false⟩ [true] = some (-1, s2)) := by
  have T := confuse_reset_run_spec ⟨false⟩ [true]
  have hwait : wait_for_simics ⟨false⟩ [true] = some ⟨false⟩ := by
    rw [wait_for_simics]
    simp only [Bool.false_eq_true, if_false]
    rw [wait_for_simics]
    simp
  have hreset : confuse_reset true ⟨false⟩ [true] = some (0, ⟨false⟩) := by
    rw [confuse_reset, if_pos rfl, hwait]
  refine ⟨T.1, T.2.1 0 ⟨false⟩ hreset, T.2.2.2.1 (Or.inr (by decide)), ?_⟩
  intro hex
  exact Bool.noConfusion ((T.2.2.2.2 true).mp hex)

end ConfuseLL

namespace ConfuseDio

/-- C9: the exit-descriptor list operations preserve the invariant — the list
is always non-empty, ends in exactly one unused sentinel node, and its used
nodes carry pairwise-distinct breakpoint ids — and `add_abnormal_exit` with an
already-registered breakpoint id leaves the list completely unchanged (no node
added, no message stored, no callback registered). -/
theorem exit_list_invariant (l : List exit_dsc) (bp : Nat) (message : String)
    (hwf : dio_wf l) :
    dio_wf dio_init_list ∧
    dio_wf (add_abnormal_exit l bp message) ∧
    dio_wf (clear_abnormal_exits l) ∧
    ((l.dropLast.any fun n => n.bp == bp) = true →
      add_abnormal_exit l bp message = l) := by
  obtain ⟨hne, hlast, hpw⟩ := hwf
  refine ⟨?_, ?_, ?_, ?_⟩
  · refine ⟨by simp [dio_init_list], ?_, by simp [dio_init_list]⟩
    intro s hs
    simp [dio_init_list] at hs
    subst hs
    exact ⟨rfl, rfl⟩
  · rw [add_abnormal_exit]
    by_cases hdup : (l.dropLast.any fun n => n.bp == bp) = true
    · rw [if_pos hdup]
      exact ⟨hne, hlast, hpw⟩
    · rw [if_neg hdup]
      have hsplit : l.dropLast ++ [(⟨bp, some message, true⟩ : exit_dsc),
          ⟨0, none, false⟩] =
          (l.dropLast ++ [⟨bp, some message, true⟩]) ++ [⟨0, none, false⟩] := by
        simp
      rw [hsplit]
      refine ⟨by simp, ?_, ?_⟩
      · intro s hs
        rw [List.getLast?_concat] at hs
        simp only [Option.mem_def, Option.some.injEq] at hs
        simp [← hs]
      · rw [List.dropLast_concat]
        rw [List.pairwise_append]
        refine ⟨hpw, by simp, ?_⟩
        intro a ha b hb
        simp only [List.mem_singleton] at hb
        subst hb
        simp only [List.any_eq_true, not_exists, not_and] at hdup
        intro he
        exact hdup a ha (by simp [he])
  · rcases l with _ | ⟨n1, t1⟩
    · exact absurd rfl hne
    · rcases t1 with _ | ⟨n2, t2⟩
      · refine ⟨by simp [clear_abnormal_exits], ?_, by simp [clear_abnormal_exits]⟩
        intro s hs
        have h1 := hlast n1 (by simp)
        simp only [clear_abnormal_exits, List.getLast?_singleton, Option.mem_def,
          Option.some.injEq] at hs
        subst hs
        exact h1
      · refine ⟨by simp [clear_abnormal_exits], ?_, by simp [clear_abnormal_exits]⟩
        intro s hs
        simp [clear_abnormal_exits] at hs
        subst hs
        exact ⟨rfl, rfl⟩
  · intro hdup
    rw [add_abnormal_exit, if_pos hdup]

/-- Witness for C9 at a well-formed list with one used node carrying
breakpoint id 5, adding a duplicate id 5. -/
theorem exit_list_invariant_witness :
    dio_wf dio_init_list ∧
    dio_wf (add_abnormal_exit
      [⟨5, some "stack smashing detected", true⟩, ⟨0, none, false⟩] 5 "dup") ∧
    dio_wf (clear_abnormal_exits
      [⟨5, some "stack smashing detected", true⟩, ⟨0, none, false⟩]) ∧
    add_abnormal_exit
        [⟨5, some "stack smashing detected", true⟩, ⟨0, none, false⟩] 5 "dup" =
      [⟨5, some "stack smashing detected", true⟩, ⟨0, none, false⟩] := by
  have T := exit_list_invariant
    [⟨5, some "stack smashing detected", true⟩, ⟨0, none, false⟩] 5 "dup"
    ⟨by simp, by simp, by simp⟩
  exact ⟨T.1, T.2.1, T.2.2.1, T.2.2.2 (by simp)⟩

end ConfuseDio

namespace AflTracer

/-- C1 counterexample: the byte increment in `afl_maybe_log` is the C `++` on
an `unsigned char`, which wraps modulo 256 rather than saturating: recording
location 0 against a map whose bytes all hold 255 leaves byte 0 at 0, not at
the saturated value 255. -/
theorem afl_record_wraps_at_255 :
    mapAt (afl_maybe_log ⟨some fun _ => 255, 0⟩ 0) 0 = 0 ∧ (0 : Nat) ≠ 255 :=
  ⟨rfl, by decide⟩

/-- C1 (amended): `afl_maybe_log` computes `h = (loc >> 4) XOR (loc << 8)` in
64-bit arithmetic, masks `h` to `map_size - 1` (65535), increments the byte
`map[h XOR prev_loc]` modulo 256 (wrapping from 255 back to 0, not
saturating), leaves every other byte unchanged, and sets `prev_loc = h >> 1`;
with the map pointer unset it is a no-op that changes neither the map nor
`prev_loc`. -/
theorem afl_record_spec (m : Nat → Nat) (prev loc : Nat) :
    afl_maybe_log ⟨none, prev⟩ loc = ⟨none, prev⟩ ∧
    (afl_maybe_log ⟨some m, prev⟩ loc).prev_loc =
      ((((loc % 2 ^ 64) / 16) ^^^ ((loc * 256) % 2 ^ 64)) % 65536) / 2 ∧
    (∀ i, mapAt (afl_maybe_log ⟨some m, prev⟩ loc) i =
      if i = ((((loc % 2 ^ 64) / 16) ^^^ ((loc * 256) % 2 ^ 64)) % 65536) ^^^ prev then
        (m i + 1) % 256
      else m i) := by
  have hcur : ∀ L : Nat,
      (((L % 2 ^ 64) >>> 4) ^^^ ((L <<< 8) % 2 ^ 64)) &&& (MAP_SIZE - 1) =
        (((L % 2 ^ 64) / 16) ^^^ ((L * 256) % 2 ^ 64)) % 65536 := by
    intro L
    have hm : MAP_SIZE - 1 = 2 ^ 16 - 1 := by decide
    rw [hm, Nat.and_pow_two_sub_one_eq_mod, Nat.shiftRight_eq_div_pow,
      Nat.shiftLeft_eq]
  refine ⟨rfl, ?_, ?_⟩
  · have hpl : (afl_maybe_log ⟨some m, prev⟩ loc).prev_loc =
        ((((loc % 2 ^ 64) >>> 4) ^^^ ((loc <<< 8) % 2 ^ 64)) &&& (MAP_SIZE - 1)) >>> 1 :=
      rfl
    rw [hpl, hcur loc, Nat.shiftRight_eq_div_pow]
  · intro i
    have hmi : mapAt (afl_maybe_log ⟨some m, prev⟩ loc) i =
        if i = ((((loc % 2 ^ 64) >>> 4) ^^^ ((loc <<< 8) % 2 ^ 64)) &&&
            (MAP_SIZE - 1)) ^^^ prev then
          (m i + 1) % 256
        else m i := rfl
    rw [hmi, hcur loc]

end AflTracer

namespace AflWrapper

/-- C2 counterexample: with the coverage-map variable set and the input-map
variable unset, bit 29 of the status word that init writes is clear — the
claim's "bit 29 advertises map-size negotiation" does not hold; the code's
map-size flag `FS_OPT_MAPSIZE = 0x40000000` is bit 30 (bit 29 would be
`FS_OPT_SNAPSHOT`, which is never set). -/
theorem init_status_bit29_clear :
    (confuse_aflplusplus_init (some "12") none true).2.1 =
      [IOEvent.writeReq (FORKSRV_FD + 1) (u32le (init_status none))] ∧
    Nat.testBit (init_status none) 29 = false :=
  ⟨rfl, by decide⟩

theorem set_mapsize_and_femask (x : Nat) (h1 : 1 < x) (h2 : x ≤ FS_OPT_MAX_MAPSIZE) :
    ((x - 1) <<< 1) &&& 0x00fffffe = (x - 1) <<< 1 := by
  apply Nat.eq_of_testBit_eq
  intro i
  rw [Nat.testBit_and]
  by_cases h0 : i = 0
  · subst h0
    have hz : ((x - 1) <<< 1).testBit 0 = false := by
      rw [Nat.shiftLeft_eq, pow_one, Nat.testBit_zero]
      simp [Nat.mul_mod_left]
    rw [hz]
    simp
  · by_cases h24 : 24 ≤ i
    · have hmax : FS_OPT_MAX_MAPSIZE = 2 ^ 23 := by decide
      have hlt : (x - 1) <<< 1 < 2 ^ 24 := by
        rw [Nat.shiftLeft_eq, pow_one]
        have hx : x ≤ 2 ^ 23 := by omega
        have h23 : (2 : Nat) ^ 23 * 2 = 2 ^ 24 := by norm_num
        omega
      have hfa : ((x - 1) <<< 1).testBit i = false :=
        Nat.testBit_lt_two_pow
          (lt_of_lt_of_le hlt (Nat.pow_le_pow_right (by norm_num) h24))
      rw [hfa]
      simp
    · have hi1 : 1 ≤ i := Nat.one_le_iff_ne_zero.mpr h0
      have hi23 : i ≤ 23 := by omega
      have hM : Nat.testBit 0x00fffffe i = true := by
        interval_cases i <;> decide
      rw [hM, Bool.and_true]

theorem get_set_mapsize_roundtrip (x : Nat) (h1 : 1 < x)
    (h2 : x ≤ FS_OPT_MAX_MAPSIZE) (fl : Nat) (hfl : fl &&& 0x00fffffe = 0) :
    FS_OPT_GET_MAPSIZE (fl ||| FS_OPT_SET_MAPSIZE x) = x := by
  rw [FS_OPT_GET_MAPSIZE, FS_OPT_SET_MAPSIZE,
    if_neg (by omega : ¬(x ≤ 1 ∨ x > FS_OPT_MAX_MAPSIZE))]
  rw [Nat.and_distrib_right, hfl, set_mapsize_and_femask x h1 h2, Nat.zero_or]
  rw [Nat.shiftLeft_eq, pow_one, Nat.shiftRight_eq_div_pow, pow_one]
  omega

/-- C2 (amended): the status word written by init has bit 0 set
(protocol-active), bit 24 set iff the direct-input shared-memory environment
variable was present, and advertises map-size negotiation with bit 30
(`FS_OPT_MAPSIZE = 0x40000000`; bit 31 is also set as part of
`FS_OPT_ENABLED = 0x80000001`, while bit 29 — `FS_OPT_SNAPSHOT` — stays
clear); it carries the map size encoded as `(map_size - 1) << 1` whenever
`1 < map_size <= 0x00fffffe/2 + 1` and 0 otherwise, the encoding occupying
bits 1–24 so that it decodes back to `map_size`.  With the coverage-map
variable set and the input-map variable unset, exactly one 4-byte write is
issued, bit 0 of its word is set, bit 24 is clear, and the map-size field
decodes back to the configured `MAP_SIZE = 65536`. -/
theorem init_status_spec (fuzz : Option String) (x : Nat)
    (h1 : 1 < x) (h2 : x ≤ FS_OPT_MAX_MAPSIZE) :
    Nat.testBit (init_status fuzz) 0 = true ∧
    Nat.testBit (init_status fuzz) 24 = fuzz.isSome ∧
    Nat.testBit (init_status fuzz) 30 = true ∧
    Nat.testBit (init_status fuzz) 31 = true ∧
    Nat.testBit (init_status fuzz) 29 = false ∧
    FS_OPT_SET_MAPSIZE x = (x - 1) * 2 ∧
    (∀ y, y ≤ 1 ∨ y > FS_OPT_MAX_MAPSIZE → FS_OPT_SET_MAPSIZE y = 0) ∧
    FS_OPT_GET_MAPSIZE (FS_OPT_ENABLED ||| FS_OPT_MAPSIZE ||| FS_OPT_SET_MAPSIZE x) = x ∧
    (confuse_aflplusplus_init (some "id") none true).2.1 =
      [IOEvent.writeReq (FORKSRV_FD + 1) (u32le (init_status none))] ∧
    (u32le (init_status none)).length = 4 ∧
    Nat.testBit (init_status none) 0 = true ∧
    Nat.testBit (init_status none) 24 = false ∧
    FS_OPT_GET_MAPSIZE (init_status none) = MAP_SIZE := by
  refine ⟨?_, ?_, ?_, ?_, ?_, ?_, ?_, ?_, rfl, by decide, by decide, by decide,
    by decide⟩
  · cases fuzz <;> simp only [init_status] <;> decide
  · cases fuzz <;> simp only [init_status, Option.isSome_some, Option.isSome_none] <;> decide
  · cases fuzz <;> simp only [init_status] <;> decide
  · cases fuzz <;> simp only [init_status] <;> decide
  · cases fuzz <;> simp only [init_status] <;> decide
  · rw [FS_OPT_SET_MAPSIZE,
      if_neg (by omega : ¬(x ≤ 1 ∨ x > FS_OPT_MAX_MAPSIZE)),
      Nat.shiftLeft_eq, pow_one]
  · intro y hy
    rw [FS_OPT_SET_MAPSIZE, if_pos hy]
  · exact get_set_mapsize_roundtrip x h1 h2 (FS_OPT_ENABLED ||| FS_OPT_MAPSIZE)
      (by decide)

/-- Witness for C2 (amended) at `fuzz = none`, `x = MAP_SIZE = 65536`. -/
theorem init_status_spec_witness :
    Nat.testBit (init_status none) 0 = true ∧
    FS_OPT_SET_MAPSIZE 65536 = (65536 - 1) * 2 ∧
    FS_OPT_GET_MAPSIZE
      (FS_OPT_ENABLED ||| FS_OPT_MAPSIZE ||| FS_OPT_SET_MAPSIZE 65536) = 65536 := by
  have T := init_status_spec none 65536 (by decide) (by decide)
  exact ⟨T.1, T.2.2.2.2.2.1, T.2.2.2.2.2.2.2.1⟩

/-- C3 counterexample: after init without the coverage-map variable (which
does return `-1`), the adapter is not inert — a subsequent wait still performs
a 4-byte read on the input control descriptor, report still performs a 4-byte
write, and the input-fetch still dereferences the input shared memory (its
result depends on the shared-memory contents), so none of the three is a
no-op. -/
theorem wait_reads_when_inert :
    (confuse_aflplusplus_init none none true).1 = -1 ∧
    (confuse_afl_wait (confuse_aflplusplus_init none none true).2.2 true 1234 true).2 ≠ [] ∧
    (confuse_afl_report (confuse_aflplusplus_init none none true).2.2 false true).2 ≠ [] ∧
    confuse_get_afl_input (fun _ => 0) ≠ confuse_get_afl_input (fun _ => 1) :=
  ⟨rfl, by decide, by decide, by decide⟩

/-- C3 (amended): when the coverage-map variable is absent, init returns `-1`
(`NotUnderFuzzer`) without failing — attaching nothing, writing nothing and
leaving the `afl` flag false — but the adapter does not become inert: every
subsequent wait still issues the 4-byte read on the input control descriptor
(its first I/O request, unguarded by the `afl` flag) and clears the `afl`
flag when that read falls short; every report still issues its 4-byte status
write and clears the `afl` flag when the write falls short; and the
input-fetch still dereferences the input shared memory, returning the 4-byte
little-endian length prefix it reads there and the payload offset 4 — its
result depends on the shared-memory contents, so it is not a no-op. -/
theorem inert_adapter_spec (fuzz : Option String) (w : Bool) (s : wrapper_state)
    (ro wo : Bool) (pid : Nat) (crash : Bool) (shm : Nat → Nat) :
    confuse_aflplusplus_init none fuzz w = (-1, [], ⟨false, false, false⟩) ∧
    (confuse_afl_wait s ro pid wo).2.head? = some (IOEvent.readReq FORKSRV_FD 4) ∧
    (confuse_afl_wait s false pid wo).1.afl = false ∧
    (confuse_afl_report s crash wo).2 =
      [IOEvent.writeReq (FORKSRV_FD + 1) (u32le (if crash then 6 else 0))] ∧
    (confuse_afl_report s crash false).1.afl = false ∧
    confuse_get_afl_input shm =
      (shm 0 + shm 1 <<< 8 + shm 2 <<< 16 + shm 3 <<< 24, 4) ∧
    confuse_get_afl_input (fun _ => 0) ≠ confuse_get_afl_input (fun _ => 1) := by
  refine ⟨rfl, ?_, rfl, rfl, rfl, rfl, by decide⟩
  cases ro <;> rfl

end AflWrapper
